import Mathlib

/-!
Shallow embedding of the page-assembly and usage-synthesis core of
`src/components/meta.tsx` (docland), together with theorems checking the
natural-language specification against it.

JavaScript conventions modelled explicitly:
  - `string | undefined` becomes `Option String`; JS truthiness of such a
    value (`if (item)`) is false for both `undefined` and `""`.
  - `item?.split(".")` becomes `Option.map jsSplitDot`, where `jsSplitDot`
    is a structural embedding of `String.prototype.split` with the
    one-character separator `"."`; in JS `"".split(".")` is `[""]`, and
    `jsSplitDot "" = [""]` likewise.
  - `Array.prototype.pop` is modelled functionally: the popped value is
    `List.getLast?` and the remaining array is `List.dropLast`.
  - template-literal brace characters are written with `\x7b` / `\x7d`.
The collaborators `parseURL` and `camelize` live in `util.ts`, outside this
fragment; `parseUsage` is therefore parameterised over them, so every
theorem below holds for any implementation of the two.
-/

/-- JS truthiness of a `string | undefined` value: `undefined` and the
empty string are falsy. -/
def jsTruthy : Option String → Bool
  | none => false
  | some s => s ≠ ""

/-- Accumulator version of `jsSplitDot`: `acc` holds the characters of the
current segment in reverse. -/
def jsSplitDotAux : List Char → List Char → List String
  | [], acc => [String.mk acc.reverse]
  | c :: cs, acc =>
      if c = '.' then String.mk acc.reverse :: jsSplitDotAux cs []
      else jsSplitDotAux cs (c :: acc)

/-- Embedding of the JS expression `s.split(".")`: split `s` at every
occurrence of the character `'.'`.  As in JS, the result is never the
empty list (`"".split(".") = [""]`). -/
def jsSplitDot (s : String) : List String :=
  jsSplitDotAux s.data []

/-- Structured view of a module specifier, as produced by `parseURL` in
`util.ts` (fields as destructured at the call sites in `meta.tsx`). -/
structure ParsedURL where
  registry : Option String := none
  org : Option String := none
  package : Option String := none
  version : Option String := none
  module : Option String := none
deriving Repr, DecidableEq

/-- The `ParsedUsage` interface of `meta.tsx` (lines 500-514). -/
structure ParsedUsage where
  importSymbol : String
  usageSymbol : Option String
  localVar : Option String
  importStatement : String
deriving Repr, DecidableEq

/-- `parseUsage` of `meta.tsx` (lines 518-550), parameterised over the
external collaborators `parseURL` and `camelize` from `util.ts`.
The source mutates `itemParts` via `pop()`; here the popped value is
`getLast?` and the remaining list `dropLast`.  `importSymbol` reads
`itemParts[0]` before the pop, as in the source. -/
def parseUsage (parseURLf : String → Option ParsedURL)
    (camelize : String → String)
    (url : String) (item : Option String) (isType : Option Bool) :
    ParsedUsage :=
  let parsed := parseURLf url
  let itemParts0 := item.map jsSplitDot
  let importSymbol :=
    match itemParts0 with
    | some parts => parts.headD ""
    | none => camelize ((parsed.bind ParsedURL.package).getD "mod")
  let usageSymbol : Option String :=
    match itemParts0 with
    | some parts => if parts.length > 1 then parts.getLast? else none
    | none => none
  let itemParts : Option (List String) :=
    match itemParts0 with
    | some parts =>
        if parts.length > 1 then some parts.dropLast else some parts
    | none => none
  let localVar := itemParts.map (String.intercalate ".")
  let importStatement0 :=
    if jsTruthy item then
      "import " ++ (if isType.getD false then "type " else "") ++
        "\x7b " ++ importSymbol ++ " \x7d from \"" ++ url ++ "\";\n"
    else
      "import * as " ++ importSymbol ++ " from \"" ++ url ++ "\";\n"
  let importStatement :=
    if jsTruthy usageSymbol then
      importStatement0 ++ "\nconst \x7b " ++ usageSymbol.getD "" ++
        " \x7d = " ++ localVar.getD "" ++ ";\n"
    else
      importStatement0
  { importSymbol, usageSymbol, localVar, importStatement }

/-- Claim C1 counterexample: for the single-segment item `"Foo"`,
`parseUsage` returns `localVar = some "Foo"` (present) while
`usageSymbol` is absent, refuting both "localVar present only when the
dotted path has at least 2 segments" and "usageSymbol present iff
localVar present". -/
theorem parseUsage_single_segment_localVar_present :
    (parseUsage (fun _ => none) id "https://example.com/mod.ts"
      (some "Foo") none).localVar = some "Foo" ∧
    (parseUsage (fun _ => none) id "https://example.com/mod.ts"
      (some "Foo") none).usageSymbol = none := by
  constructor <;> decide

/-- Claim C1 (amended): for every url and item, `localVar` is present iff
`item` is present (for a single-segment item it equals the item itself),
and `usageSymbol` is present iff `item` is present and its dotted path
has at least 2 segments; hence `usageSymbol` present implies `localVar`
present, but not conversely. -/
theorem parseUsage_localVar_usageSymbol_presence
    (parseURLf : String → Option ParsedURL) (camelize : String → String)
    (url : String) (item : Option String) (isType : Option Bool) :
    ((parseUsage parseURLf camelize url item isType).localVar.isSome ↔
      item.isSome) ∧
    ((parseUsage parseURLf camelize url item isType).usageSymbol.isSome ↔
      ∃ s, item = some s ∧ 2 ≤ (jsSplitDot s).length) := by
  cases item with
  | none => simp [parseUsage]
  | some s =>
    constructor
    · simp only [parseUsage, Option.map_some']
      split <;> simp
    · simp only [parseUsage, Option.map_some']
      by_cases h : (jsSplitDot s).length > 1
      · simp only [h, if_true]
        constructor
        · intro _
          exact ⟨s, rfl, h⟩
        · intro _
          rw [Option.isSome_iff_ne_none, ne_eq, List.getLast?_eq_none_iff]
          intro hnil
          rw [hnil] at h
          simp at h
      · simp only [h, if_false]
        constructor
        · intro hfalse
          simp at hfalse
        · rintro ⟨t, ht, hlen⟩
          cases ht
          omega

/-- Claim C3: `parseUsage(url, "Foo.bar", true)` returns
`importSymbol = "Foo"`, `usageSymbol = "bar"`, `localVar = "Foo"`, and
an import statement of exactly the shape
`import type \x7b Foo \x7d from "<url>";` newline, blank line, then
`const \x7b bar \x7d = Foo;` newline — for every url and any
implementation of the collaborators. -/
theorem parseUsage_foo_bar_type
    (parseURLf : String → Option ParsedURL) (camelize : String → String)
    (url : String) :
    parseUsage parseURLf camelize url (some "Foo.bar") (some true) =
      ⟨"Foo", some "bar", some "Foo",
        "import type \x7b Foo \x7d from \"" ++ url ++
          "\";\n\nconst \x7b bar \x7d = Foo;\n"⟩ := by
  have hsplit : jsSplitDot "Foo.bar" = ["Foo", "bar"] := by decide
  have h1 : ("import type \x7b Foo \x7d from \"" : String) =
      ("import " ++ "type ") ++ "\x7b " ++ "Foo" ++ " \x7d from \"" := by
    decide
  have h2 : ("\";\n\nconst \x7b bar \x7d = Foo;\n" : String) =
      "\";\n" ++ ("\nconst \x7b " ++ ("bar" ++ (" \x7d = " ++
        ("Foo" ++ ";\n")))) := by decide
  have hbar : (("bar" : String) = "") = False := by simp
  have hfb : (("Foo.bar" : String) = "") = False := by simp
  simp only [parseUsage, Option.map_some', hsplit]
  norm_num [jsTruthy, String.intercalate, String.intercalate.go]
  simp only [hbar, hfb, if_false]
  rw [h1, h2]
  simp only [String.append_assoc]

/-- Claim C9: for the empty-string item, `parseUsage` mixes the two
branches: `importSymbol` and `localVar` are both the empty string (taken
from the segments of `"".split(".") = [""]`), yet the import statement
takes the namespace-import form `import * as  from "<url>";` because the
statement shape is chosen by the truthiness of `item`, which is false for
`""`. -/
theorem parseUsage_empty_item
    (parseURLf : String → Option ParsedURL) (camelize : String → String)
    (url : String) (isType : Option Bool) :
    parseUsage parseURLf camelize url (some "") isType =
      ⟨"", none, some "",
        "import * as " ++ "" ++ " from \"" ++ url ++ "\";\n"⟩ := by
  have hsplit : jsSplitDot "" = [""] := by decide
  simp only [parseUsage, Option.map_some', hsplit]
  norm_num [jsTruthy, String.intercalate]
  rfl


/-- Helper for the totality claim: the import statement built by
`parseUsage` — the two-way choice of a named or namespace import,
optionally followed by the destructuring line — always starts with the
word `import` and ends in a semicolon and newline, whatever the booleans
and component strings are. -/
theorem importStatement_shape (c1 c2 : Bool) (t sym url us lv : String) :
    (∃ a,
      (if c1 then
        (if c2 then
          "import " ++ t ++ "\x7b " ++ sym ++ " \x7d from \"" ++ url ++
            "\";\n"
        else
          "import * as " ++ sym ++ " from \"" ++ url ++ "\";\n") ++
          "\nconst \x7b " ++ us ++ " \x7d = " ++ lv ++ ";\n"
      else
        (if c2 then
          "import " ++ t ++ "\x7b " ++ sym ++ " \x7d from \"" ++ url ++
            "\";\n"
        else
          "import * as " ++ sym ++ " from \"" ++ url ++ "\";\n")) =
        "import " ++ a) ∧
    (∃ b,
      (if c1 then
        (if c2 then
          "import " ++ t ++ "\x7b " ++ sym ++ " \x7d from \"" ++ url ++
            "\";\n"
        else
          "import * as " ++ sym ++ " from \"" ++ url ++ "\";\n") ++
          "\nconst \x7b " ++ us ++ " \x7d = " ++ lv ++ ";\n"
      else
        (if c2 then
          "import " ++ t ++ "\x7b " ++ sym ++ " \x7d from \"" ++ url ++
            "\";\n"
        else
          "import * as " ++ sym ++ " from \"" ++ url ++ "\";\n")) =
        b ++ ";\n") := by
  have hstar : ("import * as " : String) = "import " ++ "* as " := by
    decide
  have hq : ("\";\n" : String) = "\"" ++ ";\n" := by decide
  have hf : (false = true) = False := by simp
  have ht : (true = true) = True := by simp
  cases c1 <;> cases c2 <;> simp only [hf, ht, if_true, if_false] <;>
    constructor
  · exact ⟨"* as " ++ (sym ++ (" from \"" ++ (url ++ "\";\n"))),
      by rw [hstar]; simp only [String.append_assoc]⟩
  · exact ⟨"import * as " ++ sym ++ " from \"" ++ url ++ "\"",
      by rw [hq, ← String.append_assoc]⟩
  · exact ⟨t ++ ("\x7b " ++ (sym ++ (" \x7d from \"" ++ (url ++ "\";\n")))),
      by simp only [String.append_assoc]⟩
  · exact ⟨"import " ++ t ++ "\x7b " ++ sym ++ " \x7d from \"" ++ url ++
      "\"", by rw [hq, ← String.append_assoc]⟩
  · exact ⟨"* as " ++ (sym ++ (" from \"" ++ (url ++ ("\";\n" ++
      ("\nconst \x7b " ++ (us ++ (" \x7d = " ++ (lv ++ ";\n")))))))),
      by rw [hstar]; simp only [String.append_assoc]⟩
  · exact ⟨"import * as " ++ sym ++ " from \"" ++ url ++ "\";\n" ++
      "\nconst \x7b " ++ us ++ " \x7d = " ++ lv, rfl⟩
  · exact ⟨t ++ ("\x7b " ++ (sym ++ (" \x7d from \"" ++ (url ++
      ("\";\n" ++ ("\nconst \x7b " ++ (us ++ (" \x7d = " ++
        (lv ++ ";\n"))))))))),
      by simp only [String.append_assoc]⟩
  · exact ⟨"import " ++ t ++ "\x7b " ++ sym ++ " \x7d from \"" ++ url ++
      "\";\n" ++ "\nconst \x7b " ++ us ++ " \x7d = " ++ lv, rfl⟩

/-- Claim C8: `parseUsage` is pure and total.  In this embedding it is a
total function by construction (every operation of the source translates
to a total one), and for every combination of url, optional item and
optional isType flag — and any implementation of the collaborators — the
returned `importStatement` is a present, well-formed statement: it starts
with the word `import` and ends with a semicolon followed by the
terminating newline. -/
theorem parseUsage_total_statement_shape
    (parseURLf : String → Option ParsedURL) (camelize : String → String)
    (url : String) (item : Option String) (isType : Option Bool) :
    (∃ a, (parseUsage parseURLf camelize url item isType).importStatement =
        "import " ++ a) ∧
    (∃ b, (parseUsage parseURLf camelize url item isType).importStatement =
        b ++ ";\n") := by
  simp only [parseUsage]
  exact importStatement_shape _ _ _ _ _ _ _

/-- Embedding of the JS expression `s.startsWith(p)`. -/
def jsStartsWith (s p : String) : Bool :=
  p.data.isPrefixOf s.data

/-- Embedding of the JS expression `s.endsWith(p)`. -/
def jsEndsWith (s p : String) : Bool :=
  p.data.isSuffixOf s.data

/-- The `kind` discriminants of the `DocNode` tagged union.  Source kind
strings that are Lean keywords are renamed: `"namespace"` is `nspace`,
`"class"` is `cls`, `"variable"` is `vrbl`, `"import"` is `imprt`; the
rest keep their source names. -/
inductive DocNodeKind where
  | nspace
  | cls
  | enum
  | vrbl
  | function
  | interface
  | typeAlias
  | moduleDoc
  | imprt
deriving Repr, DecidableEq

/-- A doc node: `kind` discriminant, `name`, optional `jsDoc` (modelled
as its doc text), and — meaningful for namespace nodes — the child
elements (`namespaceDef.elements` in the source). -/
inductive DocNode where
  | mk (kind : DocNodeKind) (name : String) (jsDoc : Option String)
      (elements : List DocNode)
deriving Repr

def DocNode.kind : DocNode → DocNodeKind
  | .mk k _ _ _ => k

def DocNode.name : DocNode → String
  | .mk _ n _ _ => n

def DocNode.jsDoc : DocNode → Option String
  | .mk _ _ j _ => j

def DocNode.elements : DocNode → List DocNode
  | .mk _ _ _ e => e

/-- `isTypeOnly` of `meta.tsx` (lines 94-98): do the nodes only contain
type-only nodes. -/
def isTypeOnly (nodes : List DocNode) : Bool :=
  nodes.all (fun node =>
    node.kind == DocNodeKind.interface || node.kind == DocNodeKind.typeAlias)

/-- One rendered block produced by `CodeBlock` (the per-kind code-block
components of the source, with the merged function block). -/
inductive CodeBlockElement where
  | classCodeBlock (node : DocNode)
  | enumCodeBlock (node : DocNode)
  | interfaceCodeBlock (node : DocNode)
  | typeAliasCodeBlock (node : DocNode)
  | variableCodeBlock (node : DocNode)
  | fnCodeBlock (fnNodes : List DocNode)
deriving Repr

/-- The body of the for-loop of `CodeBlock` (meta.tsx lines 195-212):
the kind switch pushing one block onto the accumulated elements. -/
def codeBlockStep (acc : List CodeBlockElement) (node : DocNode) :
    List CodeBlockElement :=
  match node.kind with
  | .cls => acc ++ [.classCodeBlock node]
  | .enum => acc ++ [.enumCodeBlock node]
  | .interface => acc ++ [.interfaceCodeBlock node]
  | .typeAlias => acc ++ [.typeAliasCodeBlock node]
  | .vrbl => acc ++ [.variableCodeBlock node]
  | _ => acc

/-- `CodeBlock` of `meta.tsx` (lines 192-220): the for-loop with the kind
switch pushing one block per node, then all function-kind nodes filtered
out and pushed as a single merged block when any exist (`if
(fnNodes.length)` is JS number truthiness). -/
def CodeBlock (nodes : List DocNode) : List CodeBlockElement :=
  let elements := nodes.foldl codeBlockStep []
  let fnNodes := nodes.filter (fun node => node.kind == .function)
  if fnNodes.length ≠ 0 then elements ++ [.fnCodeBlock fnNodes]
  else elements

/-- One rendered section produced by `Doc` (the per-kind doc components
of the source; the namespace section receives the resolution path). -/
inductive DocElement where
  | classDoc (node : DocNode)
  | enumDoc (node : DocNode)
  | interfaceDoc (node : DocNode)
  | namespaceDoc (path : List String) (node : DocNode)
  | typeAliasDoc (node : DocNode)
  | fnDoc (fnNodes : List DocNode)
deriving Repr

/-- The body of the for-loop of `Doc` (meta.tsx lines 227-245): like the
`CodeBlock` switch but including `namespace` (with the path) and
excluding `variable`. -/
def docStep (path : List String) (acc : List DocElement) (node : DocNode) :
    List DocElement :=
  match node.kind with
  | .cls => acc ++ [.classDoc node]
  | .enum => acc ++ [.enumDoc node]
  | .interface => acc ++ [.interfaceDoc node]
  | .nspace => acc ++ [.namespaceDoc path node]
  | .typeAlias => acc ++ [.typeAliasDoc node]
  | _ => acc

/-- `Doc` of `meta.tsx` (lines 222-253): the for-loop, then the merged
trailing function section when any function nodes exist. -/
def Doc (path : List String) (nodes : List DocNode) : List DocElement :=
  let elements := nodes.foldl (docStep path) []
  let fnNodes := nodes.filter (fun node => node.kind == .function)
  if fnNodes.length ≠ 0 then elements ++ [.fnDoc fnNodes]
  else elements

/-- A rendered sidebar TOC, tagged by the per-kind TOC renderer used. -/
inductive TocElement where
  | classToc (node : DocNode)
  | enumToc (node : DocNode)
  | interfaceToc (node : DocNode)
  | namespaceToc (node : DocNode)
  | typeAliasToc (node : DocNode)
deriving Repr

/-- `DocToc` of `meta.tsx` (lines 255-291): nothing for an empty list;
for more than one node, only the two-node case with an interface among
them proceeds (with that interface); otherwise the single node; then the
kind switch with TOC renderers for class, enum, interface, namespace and
typeAlias only. -/
def DocToc (nodes : List DocNode) : Option TocElement :=
  if nodes.length = 0 then none
  else
    let node? : Option DocNode :=
      if nodes.length > 1 then
        if nodes.length = 2 then
          nodes.find? (fun n => n.kind == DocNodeKind.interface)
        else none
      else nodes.head?
    match node? with
    | none => none
    | some node =>
      match node.kind with
      | .cls => some (.classToc node)
      | .enum => some (.enumToc node)
      | .interface => some (.interfaceToc node)
      | .nspace => some (.namespaceToc node)
      | .typeAlias => some (.typeAliasToc node)
      | _ => none

/-- The namespace-resolution loop of `DocPage` (meta.tsx lines 305-314):
for each preceding path segment, look for a namespace node with that name
in the CURRENT entry list; on a hit, record it on the trail and descend
into its elements; on a miss the loop simply continues with the next
segment against the unchanged list (the source has no break).  Returns
the final entry list and the trail of traversed namespace nodes. -/
def resolveEntries : List DocNode → List String → List DocNode × List DocNode
  | entries, [] => (entries, [])
  | entries, name :: rest =>
    match entries.find? (fun n =>
        n.kind == DocNodeKind.nspace && n.name == name) with
    | some ns =>
      let r := resolveEntries ns.elements rest
      (r.1, ns :: r.2)
    | none => resolveEntries entries rest

/-- The target-node selection of `DocPage` (meta.tsx lines 302-318):
split the item on `"."`, pop the final segment as the target name,
resolve the preceding segments (when any), and keep the nodes of the
reached entry list whose name matches and whose kind is not import. -/
def targetNodes (entries : List DocNode) (item : String) : List DocNode :=
  let path0 := jsSplitDot item
  let name := (path0.getLast?).getD ""
  let path := path0.dropLast
  let entries1 :=
    if path.length ≠ 0 then (resolveEntries entries path).1 else entries
  entries1.filter (fun e =>
    e.name == name && e.kind != DocNodeKind.imprt)

/-- The props handed to the `Usage` component on an item page
(meta.tsx line 348): the url, the item, and the computed type-only
flag. -/
structure UsageBlock where
  url : String
  item : String
  isType : Bool
deriving Repr

/-- The parts of the item-page article and nav assembled by `DocPage`
(meta.tsx lines 337-367). -/
structure ItemPageData where
  item : String
  toc : Option TocElement
  usage : Option UsageBlock
  jsDoc : Option String
  codeBlock : List CodeBlockElement
  docBody : List DocElement
deriving Repr

/-- The page produced by `DocPage`: the error panel, an item page, or the
module-root page (whose details beyond library mode and the usage block
are outside the claims). -/
inductive DocPageResult where
  | errorPage (title : String) (message : String)
  | itemPage (d : ItemPageData)
  | modulePage (library : Bool) (usage : Option String)
deriving Repr

/-- `DocPage` of `meta.tsx` (lines 293-381).  For a truthy item: resolve
and select the target nodes (`targetNodes`); when none remain, the fixed
"Entry not found" error panel naming the item and the url; otherwise the
item page with TOC, usage block (suppressed for `.d.ts` urls and library
mode, type-annotated via `isTypeOnly`), first non-empty jsDoc, code block
and doc body.  For a non-truthy item, the module-root page. -/
def DocPage (entries : List DocNode) (url : String) (item : Option String) :
    DocPageResult :=
  let library := jsStartsWith url "deno/"
  if jsTruthy item then
    let itemStr := item.getD ""
    let nodes := targetNodes entries itemStr
    if nodes.length = 0 then
      .errorPage "Entry not found"
        ("The document entry named \"" ++ itemStr ++
          "\" was not found in specifier \"" ++ url ++ "\".")
    else
      let path := (jsSplitDot itemStr).dropLast
      let jsDoc := (nodes.find? (fun n => n.jsDoc.isSome)).bind DocNode.jsDoc
      .itemPage
        { item := itemStr
          toc := DocToc nodes
          usage :=
            if jsEndsWith url ".d.ts" || library then none
            else some ⟨url, itemStr, isTypeOnly nodes⟩
          jsDoc := jsDoc
          codeBlock := CodeBlock nodes
          docBody := Doc path nodes }
  else
    .modulePage library
      (if jsEndsWith url ".d.ts" || library then none else some url)

/-- The code blocks a page contains: only an item page carries any. -/
def pageCodeBlocks : DocPageResult → List CodeBlockElement
  | .itemPage d => d.codeBlock
  | _ => []

/-- The doc-body sections a page contains: only an item page carries
any. -/
def pageDocBody : DocPageResult → List DocElement
  | .itemPage d => d.docBody
  | _ => []

/-- Is the page the error panel? -/
def isErrorPage : DocPageResult → Bool
  | .errorPage _ _ => true
  | _ => false

/-- Claim C2 counterexample: entries hold a single namespace `B`
containing class `X`, and the item is `A.B.X`.  The first preceding
segment `A` fails to resolve, so the claim predicts that `B` is not
traversed and the final lookup runs against the top-level entries — which
contain no `X`, entailing the error page.  The code instead skips `A`,
still traverses `B`, looks `X` up inside it and renders a non-error item
page. -/
theorem resolveEntries_no_early_stop :
    (resolveEntries
        [DocNode.mk .nspace "B" none [DocNode.mk .cls "X" none []]]
        ["A", "B"]).1 = [DocNode.mk .cls "X" none []] ∧
    [DocNode.mk DocNodeKind.cls "X" none []] ≠
      [DocNode.mk .nspace "B" none [DocNode.mk .cls "X" none []]] ∧
    isErrorPage (DocPage
        [DocNode.mk .nspace "B" none [DocNode.mk .cls "X" none []]]
        "https://example.com/mod.ts" (some "A.B.X")) = false := by
  refine ⟨rfl, ?_, rfl⟩
  intro h
  simp at h

/-- Claim C2 (amended): when a preceding segment does not resolve to a
namespace-kind node in the current entry list, that segment is skipped:
the current entry list is left unchanged and resolution continues with
the remaining segments (so a later-listed namespace segment may still be
traversed and descended into); the entry list used for the final lookup
is the result of this skip-and-continue process, not an early stop. -/
theorem resolveEntries_skip_and_continue
    (entries : List DocNode) (name : String) (rest : List String)
    (h : entries.find? (fun n =>
        n.kind == DocNodeKind.nspace && n.name == name) = none) :
    resolveEntries entries (name :: rest) = resolveEntries entries rest := by
  conv_lhs => rw [resolveEntries]
  rw [h]

/-- Witness for the amended C2 theorem at a concrete input: a class named
`A` is not a namespace, so segment `A` is skipped and resolution
continues. -/
theorem resolveEntries_skip_and_continue_witness :
    resolveEntries [DocNode.mk .cls "A" none []] ["A", "B"] =
      resolveEntries [DocNode.mk .cls "A" none []] ["B"] :=
  resolveEntries_skip_and_continue [DocNode.mk .cls "A" none []] "A" ["B"]
    rfl

/-- The node a TOC element renders. -/
def tocNode : TocElement → DocNode
  | .classToc n => n
  | .enumToc n => n
  | .interfaceToc n => n
  | .namespaceToc n => n
  | .typeAliasToc n => n

/-- Claim C6: `DocToc` yields no TOC for an empty list; for a single node
it dispatches on that node's kind, with a TOC exactly for class, enum,
interface, namespace and typeAlias (and the TOC renders that node); for
exactly two nodes it proceeds exactly when one of them is an interface,
rendering an interface TOC for an interface node of the pair; for more
than two nodes it yields nothing. -/
theorem docToc_characterization (nodes : List DocNode) :
    (nodes = [] → DocToc nodes = none) ∧
    (∀ n, nodes = [n] →
      (((DocToc nodes).isSome ↔
          n.kind ∈ [DocNodeKind.cls, DocNodeKind.enum, DocNodeKind.interface,
            DocNodeKind.nspace, DocNodeKind.typeAlias]) ∧
        ∀ t, DocToc nodes = some t → tocNode t = n)) ∧
    (∀ a b, nodes = [a, b] →
      (((DocToc nodes).isSome ↔
          a.kind = DocNodeKind.interface ∨ b.kind = DocNodeKind.interface) ∧
        ∀ t, DocToc nodes = some t →
          ∃ n, n ∈ nodes ∧ n.kind = DocNodeKind.interface ∧
            t = TocElement.interfaceToc n)) ∧
    (2 < nodes.length → DocToc nodes = none) := by
  match nodes with
  | [] =>
    refine ⟨fun _ => rfl, ?_, ?_, ?_⟩
    · intro n h
      simp at h
    · intro a b h
      simp at h
    · intro h
      simp at h
  | [a] =>
    refine ⟨by intro h; simp at h, ?_, ?_, ?_⟩
    · intro n h
      obtain rfl : a = n := by injection h
      constructor
      · cases hk : a.kind <;>
          simp [DocToc, hk]
      · intro t ht
        cases hk : a.kind <;>
          simp [DocToc, hk] at ht <;>
          simp [← ht, tocNode]
    · intro a' b' h
      simp at h
    · intro h
      simp at h
  | [a, b] =>
    have h2 : ¬((2 : Nat) = 0) := by omega
    have h21 : (2 : Nat) > 1 := by omega
    refine ⟨by intro h; simp at h, by intro n h; simp at h, ?_, ?_⟩
    · intro a' b' h
      injection h with h1 h2
      injection h2 with h2 h3
      subst h1
      subst h2
      by_cases ha : a.kind = DocNodeKind.interface
      · have hfind : List.find? (fun n =>
            n.kind == DocNodeKind.interface) [a, b] = some a := by
          simp [List.find?_cons, ha]
        constructor
        · simp [DocToc, hfind, ha]
        · intro t ht
          simp [DocToc, hfind, ha] at ht
          exact ⟨a, by simp, ha, ht.symm⟩
      · by_cases hb : b.kind = DocNodeKind.interface
        · have hfind : List.find? (fun n =>
              n.kind == DocNodeKind.interface) [a, b] = some b := by
            simp [List.find?_cons, ha, hb]
          constructor
          · simp [DocToc, hfind, hb]
          · intro t ht
            simp [DocToc, hfind, hb] at ht
            exact ⟨b, by simp, hb, ht.symm⟩
        · have hfind : List.find? (fun n =>
              n.kind == DocNodeKind.interface) [a, b] = none := by
            simp [List.find?_cons, ha, hb]
          constructor
          · simp [DocToc, hfind, ha, hb]
          · intro t ht
            simp [DocToc, hfind] at ht
    · intro h
      simp at h
  | a :: b :: c :: rest =>
    have hlen : (a :: b :: c :: rest).length = rest.length + 3 := by
      simp
    have hnone : DocToc (a :: b :: c :: rest) = none := by
      simp only [DocToc, hlen]
      rw [if_neg (by omega), if_pos (by omega), if_neg (by omega)]
    refine ⟨by intro h; simp at h, by intro n h; simp at h,
      by intro a' b' h; simp at h, fun _ => hnone⟩

/-- Witness for the C6 theorem: the two-node interface-plus-variable pair
from the spec produces the interface TOC. -/
theorem docToc_characterization_witness :
    (DocToc [DocNode.mk DocNodeKind.interface "A" none [],
        DocNode.mk DocNodeKind.vrbl "A" none []]).isSome :=
  (((docToc_characterization
      [DocNode.mk DocNodeKind.interface "A" none [],
        DocNode.mk DocNodeKind.vrbl "A" none []]).2.2.1
    (DocNode.mk DocNodeKind.interface "A" none [])
    (DocNode.mk DocNodeKind.vrbl "A" none []) rfl).1).mpr (Or.inl rfl)

/-- The per-node block for the five code-block kinds, none otherwise. -/
def codeBlockElement? (node : DocNode) : Option CodeBlockElement :=
  match node.kind with
  | .cls => some (.classCodeBlock node)
  | .enum => some (.enumCodeBlock node)
  | .interface => some (.interfaceCodeBlock node)
  | .typeAlias => some (.typeAliasCodeBlock node)
  | .vrbl => some (.variableCodeBlock node)
  | _ => none

/-- The per-node doc section for the five doc kinds, none otherwise. -/
def docElement? (path : List String) (node : DocNode) : Option DocElement :=
  match node.kind with
  | .cls => some (.classDoc node)
  | .enum => some (.enumDoc node)
  | .interface => some (.interfaceDoc node)
  | .nspace => some (.namespaceDoc path node)
  | .typeAlias => some (.typeAliasDoc node)
  | _ => none

/-- Is this block the merged function block? -/
def isFnBlock : CodeBlockElement → Bool
  | .fnCodeBlock _ => true
  | _ => false

/-- Is this doc section the merged function section? -/
def isFnDoc : DocElement → Bool
  | .fnDoc _ => true
  | _ => false

theorem codeBlockStep_eq (acc : List CodeBlockElement) (node : DocNode) :
    codeBlockStep acc node = acc ++ (codeBlockElement? node).toList := by
  cases hk : node.kind <;>
    simp [codeBlockStep, codeBlockElement?, hk]

theorem docStep_eq (path : List String) (acc : List DocElement)
    (node : DocNode) :
    docStep path acc node = acc ++ (docElement? path node).toList := by
  cases hk : node.kind <;>
    simp [docStep, docElement?, hk]

theorem codeBlock_foldl_eq (nodes : List DocNode)
    (acc : List CodeBlockElement) :
    nodes.foldl codeBlockStep acc =
      acc ++ nodes.filterMap codeBlockElement? := by
  induction nodes generalizing acc with
  | nil => simp
  | cons x xs ih =>
    rw [List.foldl_cons, List.filterMap_cons, codeBlockStep_eq]
    cases hx : codeBlockElement? x <;>
      simp [ih, List.append_assoc]

theorem doc_foldl_eq (path : List String) (nodes : List DocNode)
    (acc : List DocElement) :
    nodes.foldl (docStep path) acc =
      acc ++ nodes.filterMap (docElement? path) := by
  induction nodes generalizing acc with
  | nil => simp
  | cons x xs ih =>
    rw [List.foldl_cons, List.filterMap_cons, docStep_eq]
    cases hx : docElement? path x <;>
      simp [ih, List.append_assoc]

/-- Shared characterisation of `CodeBlock`: the loop contributes one
block per node with a per-node block, in input order, and the merged
function block is appended exactly when function nodes exist. -/
theorem codeBlock_spec (nodes : List DocNode) :
    CodeBlock nodes =
      nodes.filterMap codeBlockElement? ++
        (if (nodes.filter
              (fun node => node.kind == DocNodeKind.function)).length ≠ 0
         then [CodeBlockElement.fnCodeBlock (nodes.filter
            (fun node => node.kind == DocNodeKind.function))]
         else []) := by
  simp only [CodeBlock, codeBlock_foldl_eq, List.nil_append]
  split
  · rfl
  · simp

/-- Shared characterisation of `Doc`, analogous to `codeBlock_spec`. -/
theorem doc_spec (path : List String) (nodes : List DocNode) :
    Doc path nodes =
      nodes.filterMap (docElement? path) ++
        (if (nodes.filter
              (fun node => node.kind == DocNodeKind.function)).length ≠ 0
         then [DocElement.fnDoc (nodes.filter
            (fun node => node.kind == DocNodeKind.function))]
         else []) := by
  simp only [Doc, doc_foldl_eq, List.nil_append]
  split
  · rfl
  · simp

/-- Claim C7: `CodeBlock` emits exactly one rendered block per node of
kind class, enum, interface, typeAlias or variable (in input order, via
the per-node block function, which yields a block exactly for those five
kinds); all function-kind nodes are merged into a single rendered block
appended only when at least one exists; every other kind contributes no
code block. -/
theorem codeBlock_characterization (nodes : List DocNode) :
    (CodeBlock nodes =
      nodes.filterMap codeBlockElement? ++
        (if (nodes.filter
              (fun node => node.kind == DocNodeKind.function)).length ≠ 0
         then [CodeBlockElement.fnCodeBlock (nodes.filter
            (fun node => node.kind == DocNodeKind.function))]
         else [])) ∧
    (∀ n : DocNode, (codeBlockElement? n).isSome ↔
      n.kind ∈ [DocNodeKind.cls, DocNodeKind.enum, DocNodeKind.interface,
        DocNodeKind.typeAlias, DocNodeKind.vrbl]) := by
  refine ⟨codeBlock_spec nodes, ?_⟩
  intro n
  cases hk : n.kind <;> simp [codeBlockElement?, hk]

/-- No per-node code block is the merged function block. -/
theorem filterMap_codeBlockElement_not_fn (nodes : List DocNode) :
    ∀ b ∈ nodes.filterMap codeBlockElement?, isFnBlock b = false := by
  intro b hb
  obtain ⟨n, _, he⟩ := List.mem_filterMap.mp hb
  cases hk : n.kind <;> simp [codeBlockElement?, hk] at he <;>
    simp [← he, isFnBlock]

/-- No per-node doc section is the merged function section. -/
theorem filterMap_docElement_not_fn (path : List String)
    (nodes : List DocNode) :
    ∀ e ∈ nodes.filterMap (docElement? path), isFnDoc e = false := by
  intro e he0
  obtain ⟨n, _, he⟩ := List.mem_filterMap.mp he0
  cases hk : n.kind <;> simp [docElement?, hk] at he <;>
    simp [← he, isFnDoc]

/-- Claim C10: in both `CodeBlock` and `Doc`, every non-function block
precedes every function block in the output (the output is its
non-function part followed by its function part), and the non-function
part is exactly the per-node blocks of the input in input order. -/
theorem fn_block_emitted_last (nodes : List DocNode) (path : List String) :
    (CodeBlock nodes =
      (CodeBlock nodes).filter (fun b => !isFnBlock b) ++
        (CodeBlock nodes).filter (fun b => isFnBlock b)) ∧
    ((CodeBlock nodes).filter (fun b => !isFnBlock b) =
      nodes.filterMap codeBlockElement?) ∧
    (Doc path nodes =
      (Doc path nodes).filter (fun e => !isFnDoc e) ++
        (Doc path nodes).filter (fun e => isFnDoc e)) ∧
    ((Doc path nodes).filter (fun e => !isFnDoc e) =
      nodes.filterMap (docElement? path)) := by
  have hcb1 : (CodeBlock nodes).filter (fun b => !isFnBlock b) =
      nodes.filterMap codeBlockElement? := by
    rw [codeBlock_spec, List.filter_append]
    rw [List.filter_eq_self.mpr (fun b hb => by
      simp [filterMap_codeBlockElement_not_fn nodes b hb])]
    split <;> simp [isFnBlock]
  have hcb2 : (CodeBlock nodes).filter (fun b => isFnBlock b) =
      (if (nodes.filter
            (fun node => node.kind == DocNodeKind.function)).length ≠ 0
       then [CodeBlockElement.fnCodeBlock (nodes.filter
          (fun node => node.kind == DocNodeKind.function))]
       else []) := by
    rw [codeBlock_spec, List.filter_append]
    rw [List.filter_eq_nil_iff.mpr (fun b hb => by
      simp [filterMap_codeBlockElement_not_fn nodes b hb])]
    split <;> simp [isFnBlock]
  have hd1 : (Doc path nodes).filter (fun e => !isFnDoc e) =
      nodes.filterMap (docElement? path) := by
    rw [doc_spec, List.filter_append]
    rw [List.filter_eq_self.mpr (fun e he => by
      simp [filterMap_docElement_not_fn path nodes e he])]
    split <;> simp [isFnDoc]
  have hd2 : (Doc path nodes).filter (fun e => isFnDoc e) =
      (if (nodes.filter
            (fun node => node.kind == DocNodeKind.function)).length ≠ 0
       then [DocElement.fnDoc (nodes.filter
          (fun node => node.kind == DocNodeKind.function))]
       else []) := by
    rw [doc_spec, List.filter_append]
    rw [List.filter_eq_nil_iff.mpr (fun e he => by
      simp [filterMap_docElement_not_fn path nodes e he])]
    split <;> simp [isFnDoc]
  refine ⟨?_, hcb1, ?_, hd1⟩
  · rw [hcb1, hcb2]
    exact codeBlock_spec nodes
  · rw [hd1, hd2]
    exact doc_spec path nodes

/-- Claim C4: `DocPage` yields the error page exactly when an item is
requested and its target node set is empty (the only error path), and the
error page carries the fixed "Entry not found" title, a message naming
both the requested item and the module url, and no code block and no doc
body. -/
theorem docPage_error_characterization (entries : List DocNode)
    (url : String) (item : Option String) :
    ((∃ t m, DocPage entries url item = .errorPage t m) ↔
      (jsTruthy item = true ∧ targetNodes entries (item.getD "") = [])) ∧
    (∀ t m, DocPage entries url item = .errorPage t m →
      t = "Entry not found" ∧
      (∃ l r, m = l ++ item.getD "" ++ r) ∧
      (∃ l r, m = l ++ url ++ r) ∧
      pageCodeBlocks (DocPage entries url item) = [] ∧
      pageDocBody (DocPage entries url item) = []) := by
  by_cases hi : jsTruthy item = true
  · by_cases hn : (targetNodes entries (item.getD "")).length = 0
    · have hD : DocPage entries url item =
          .errorPage "Entry not found"
            ("The document entry named \"" ++ item.getD "" ++
              "\" was not found in specifier \"" ++ url ++ "\".") := by
        simp only [DocPage]
        rw [if_pos hi, if_pos hn]
      constructor
      · exact ⟨fun _ => ⟨hi, List.length_eq_zero.mp hn⟩,
          fun _ => ⟨_, _, hD⟩⟩
      · intro t m heq
        rw [hD] at heq
        injection heq with h1 h2
        subst h1
        subst h2
        refine ⟨rfl, ?_, ?_, by rw [hD]; rfl, by rw [hD]; rfl⟩
        · exact ⟨"The document entry named \"",
            "\" was not found in specifier \"" ++ url ++ "\".",
            by simp only [String.append_assoc]⟩
        · exact ⟨"The document entry named \"" ++ item.getD "" ++
            "\" was not found in specifier \"", "\".",
            by simp only [String.append_assoc]⟩
    · have hD : DocPage entries url item = .itemPage
          { item := item.getD ""
            toc := DocToc (targetNodes entries (item.getD ""))
            usage :=
              if jsEndsWith url ".d.ts" || jsStartsWith url "deno/" then none
              else some ⟨url, item.getD "",
                isTypeOnly (targetNodes entries (item.getD ""))⟩
            jsDoc := ((targetNodes entries (item.getD "")).find?
              (fun n => n.jsDoc.isSome)).bind DocNode.jsDoc
            codeBlock := CodeBlock (targetNodes entries (item.getD ""))
            docBody := Doc ((jsSplitDot (item.getD "")).dropLast)
              (targetNodes entries (item.getD "")) } := by
        simp only [DocPage]
        rw [if_pos hi, if_neg hn]
      constructor
      · constructor
        · rintro ⟨t, m, heq⟩
          rw [hD] at heq
          simp at heq
        · rintro ⟨_, hnil⟩
          exact absurd (by rw [hnil]; rfl :
            (targetNodes entries (item.getD "")).length = 0) hn
      · intro t m heq
        rw [hD] at heq
        simp at heq
  · have hD : DocPage entries url item =
        .modulePage (jsStartsWith url "deno/")
          (if jsEndsWith url ".d.ts" || jsStartsWith url "deno/" then none
           else some url) := by
      simp only [DocPage]
      rw [if_neg hi]
    constructor
    · constructor
      · rintro ⟨t, m, heq⟩
        rw [hD] at heq
        simp at heq
      · rintro ⟨htruthy, _⟩
        exact absurd htruthy hi
    · intro t m heq
      rw [hD] at heq
      simp at heq

/-- Witness for the C4 theorem: the spec's `NoSuchName` example, with no
matching entries, yields the error page. -/
theorem docPage_error_characterization_witness :
    ∃ t m, DocPage [] "https://example.com/a.ts" (some "NoSuchName") =
      .errorPage t m :=
  (docPage_error_characterization [] "https://example.com/a.ts"
    (some "NoSuchName")).1.mpr ⟨by decide, rfl⟩

/-- Claim C5: on an item page, the usage block is rendered iff the url
does not end with `.d.ts` and the page is not in library mode (url
starting with `deno/`); when rendered, it is annotated as a type-only
statement iff every node of the target node set has kind interface or
typeAlias. -/
theorem itemPage_usage_characterization (entries : List DocNode)
    (url : String) (item : Option String) (d : ItemPageData)
    (h : DocPage entries url item = .itemPage d) :
    (d.usage.isSome ↔
      (jsEndsWith url ".d.ts" = false ∧ jsStartsWith url "deno/" = false)) ∧
    (∀ ub, d.usage = some ub →
      (ub.isType = true ↔
        ∀ n ∈ targetNodes entries (item.getD ""),
          n.kind = DocNodeKind.interface ∨
            n.kind = DocNodeKind.typeAlias)) := by
  by_cases hi : jsTruthy item = true
  · by_cases hn : (targetNodes entries (item.getD "")).length = 0
    · exfalso
      have hD : DocPage entries url item =
          .errorPage "Entry not found"
            ("The document entry named \"" ++ item.getD "" ++
              "\" was not found in specifier \"" ++ url ++ "\".") := by
        simp only [DocPage]
        rw [if_pos hi, if_pos hn]
      rw [hD] at h
      simp at h
    · have hD : DocPage entries url item = .itemPage
          { item := item.getD ""
            toc := DocToc (targetNodes entries (item.getD ""))
            usage :=
              if jsEndsWith url ".d.ts" || jsStartsWith url "deno/" then none
              else some ⟨url, item.getD "",
                isTypeOnly (targetNodes entries (item.getD ""))⟩
            jsDoc := ((targetNodes entries (item.getD "")).find?
              (fun n => n.jsDoc.isSome)).bind DocNode.jsDoc
            codeBlock := CodeBlock (targetNodes entries (item.getD ""))
            docBody := Doc ((jsSplitDot (item.getD "")).dropLast)
              (targetNodes entries (item.getD "")) } := by
        simp only [DocPage]
        rw [if_pos hi, if_neg hn]
      rw [hD] at h
      injection h with h1
      subst h1
      constructor
      · cases he : jsEndsWith url ".d.ts" <;>
          cases hl : jsStartsWith url "deno/" <;>
            simp [he, hl]
      · intro ub hub
        by_cases hcond :
            (jsEndsWith url ".d.ts" || jsStartsWith url "deno/") = true
        · rw [if_pos hcond] at hub
          exact absurd hub (by simp)
        · rw [if_neg hcond] at hub
          obtain rfl : ub = ⟨url, item.getD "",
              isTypeOnly (targetNodes entries (item.getD ""))⟩ := by
            simpa using hub.symm
          simp only [isTypeOnly, List.all_eq_true]
          constructor
          · intro hall n hmem
            have := hall n hmem
            simpa using this
          · intro hall n hmem
            have := hall n hmem
            simpa using this
  · exfalso
    have hD : DocPage entries url item =
        .modulePage (jsStartsWith url "deno/")
          (if jsEndsWith url ".d.ts" || jsStartsWith url "deno/" then none
           else some url) := by
      simp only [DocPage]
      rw [if_neg hi]
    rw [hD] at h
    simp at h

/-- Witness for the C5 theorem: a single interface entry on a plain
registry url renders an item page whose usage block is present. -/
theorem itemPage_usage_characterization_witness :
    ∃ d, DocPage [DocNode.mk DocNodeKind.interface "Foo" none []]
        "https://example.com/mod.ts" (some "Foo") = .itemPage d ∧
      d.usage.isSome :=
  ⟨_, rfl,
    (itemPage_usage_characterization
      [DocNode.mk DocNodeKind.interface "Foo" none []]
      "https://example.com/mod.ts" (some "Foo") _ rfl).1.mpr ⟨rfl, rfl⟩⟩
